import Mathlib

/-!
A verification development for the `ramjet` lightcurve-classification
pipeline.  The Python sources are shallowly embedded: 1-D numpy arrays
become Lean lists (over `ℚ` where the code is exact arithmetic, over `ℝ`
where it is transcendental), numpy float semantics with NaN and
infinities become an explicit `FloatVal` type, `tf.data.Dataset`s become
lists, random draws become explicit oracle parameters, and exceptions
become `Option`/`Except` results.
-/

namespace Ramjet

/-! ## `LightcurveDatabase.make_uniform_length` (src/lightcurve_database.py)

`np.pad(lightcurve, (0, k), mode='wrap')` appends `k` elements that
continue the array cyclically, so position `i` of the result holds
`lightcurve[i % len]`.  The random draw `np.random.randint(0, n - T)`
is passed in as the explicit parameter `s`; its support is
`0 ≤ s < n - T`. -/

def wrap_pad (l : List ℚ) (k : ℕ) : List ℚ :=
  l ++ (List.range k).map (fun i => l.getD (i % l.length) 0)

def make_uniform_length (time_steps_per_example : ℕ) (l : List ℚ) (s : ℕ) : List ℚ :=
  if l.length > time_steps_per_example then
    (l.drop s).take time_steps_per_example
  else
    wrap_pad l (time_steps_per_example - l.length)

theorem wrap_pad_length (l : List ℚ) (k : ℕ) : (wrap_pad l k).length = l.length + k := by
  simp [wrap_pad]

theorem wrap_pad_getD (l : List ℚ) (k : ℕ) (i : ℕ) (hl : l ≠ []) (hi : i < l.length + k) :
    (wrap_pad l k).getD i 0 = l.getD (i % l.length) 0 := by
  have hlen : 0 < l.length := List.length_pos.mpr hl
  unfold wrap_pad
  rcases lt_or_ge i l.length with h | h
  · rw [List.getD_append _ _ _ _ h, Nat.mod_eq_of_lt h]
  · rw [List.getD_append_right _ _ _ _ h]
    have hik : i - l.length < k := by omega
    have : ((List.range k).map (fun i => l.getD (i % l.length) 0)).getD (i - l.length) 0
        = l.getD ((i - l.length) % l.length) 0 := by
      have hget : ((List.range k).map (fun i => l.getD (i % l.length) 0))[i - l.length]? =
          some (l.getD ((i - l.length) % l.length) 0) := by
        rw [List.getElem?_map, List.getElem?_range hik]
        rfl
      rw [List.getD_eq_getElem?_getD, hget]
      rfl
    rw [this, ← Nat.mod_eq_sub_mod h]

/-- C2: `make_uniform_length` always returns an array of length exactly
`time_steps_per_example`; when the input is strictly longer it is a
contiguous slice `input[s : s + T]` with `0 ≤ s ≤ len - T` (the random
draw satisfies `s < len - T`), otherwise the input is wrap-padded so
position `i` holds `input[i % len]`. -/
theorem make_uniform_length_spec (T : ℕ) (l : List ℚ) (s : ℕ)
    (hl : l ≠ []) (hs : l.length > T → s < l.length - T) :
    (make_uniform_length T l s).length = T ∧
    (l.length > T →
      make_uniform_length T l s = (l.drop s).take T ∧ s ≤ l.length - T) ∧
    (¬ l.length > T →
      ∀ i, i < T → (make_uniform_length T l s).getD i 0 = l.getD (i % l.length) 0) := by
  by_cases h : l.length > T
  · have hs' := hs h
    refine ⟨?_, fun _ => ⟨by simp [make_uniform_length, h], by omega⟩, fun hc => absurd h hc⟩
    simp only [make_uniform_length, if_pos h, List.length_take, List.length_drop]
    omega
  · have hTl : l.length ≤ T := by omega
    refine ⟨?_, fun hc => absurd hc h, fun _ i hi => ?_⟩
    · simp only [make_uniform_length, if_neg h, wrap_pad_length]
      omega
    · simp only [make_uniform_length, if_neg h]
      exact wrap_pad_getD l (T - l.length) i hl (by omega)

theorem make_uniform_length_spec_witness :
    (([3, 5] : List ℚ) ≠ [] ∧ (([3, 5] : List ℚ).length > 4 → 0 < ([3, 5] : List ℚ).length - 4)) ∧
    ((make_uniform_length 4 [3, 5] 0).length = 4 ∧
     (([3, 5] : List ℚ).length > 4 →
       make_uniform_length 4 [3, 5] 0 = (([3, 5] : List ℚ).drop 0).take 4 ∧
         0 ≤ ([3, 5] : List ℚ).length - 4) ∧
     (¬ ([3, 5] : List ℚ).length > 4 →
       ∀ i, i < 4 →
         (make_uniform_length 4 [3, 5] 0).getD i 0 = ([3, 5] : List ℚ).getD (i % ([3, 5] : List ℚ).length) 0)) :=
  ⟨⟨by decide, by decide⟩, make_uniform_length_spec 4 [3, 5] 0 (by decide) (by decide)⟩

/-! ## `LightcurveDatabase.repeat_dataset_to_size` (src/lightcurve_database.py)

`tf.data.Dataset`s of examples are embedded as lists.  `dataset.repeat(c)`
with `c ≥ 0` concatenates `c` copies of the dataset and `dataset.take(s)`
keeps the first `s` elements.  `math.ceil(size / current_size)` is the
ceiling of the exact rational quotient. -/

def list_repeat (l : List α) : ℕ → List α
  | 0 => []
  | k + 1 => l ++ list_repeat l k

def repeat_dataset_to_size (l : List α) (size : ℕ) : List α :=
  let current_size := l.length
  let times_to_repeat := (Int.ceil ((size : ℚ) / (current_size : ℚ))).toNat
  (list_repeat l times_to_repeat).take size

theorem list_repeat_length (l : List α) (k : ℕ) : (list_repeat l k).length = l.length * k := by
  induction k with
  | zero => simp [list_repeat]
  | succ k ih => simp [list_repeat, ih]; ring

theorem list_repeat_getD (l : List α) (d : α) (k : ℕ) (i : ℕ) (hi : i < l.length * k) :
    (list_repeat l k).getD i d = l.getD (i % l.length) d := by
  induction k generalizing i with
  | zero => rw [Nat.mul_zero] at hi; omega
  | succ k ih =>
    rw [Nat.mul_succ] at hi
    rcases lt_or_ge i l.length with h | h
    · rw [list_repeat, List.getD_append _ _ _ _ h, Nat.mod_eq_of_lt h]
    · rw [list_repeat, List.getD_append_right _ _ _ _ h, ih (i - l.length) (by omega),
        ← Nat.mod_eq_sub_mod h]

theorem times_to_repeat_spec (n size : ℕ) (hn : 0 < n) :
    size ≤ n * (Int.ceil ((size : ℚ) / (n : ℚ))).toNat := by
  have hn' : (0 : ℚ) < (n : ℚ) := by exact_mod_cast hn
  have hceil : ((size : ℚ) / (n : ℚ)) ≤ ((Int.ceil ((size : ℚ) / (n : ℚ)) : ℤ) : ℚ) :=
    Int.le_ceil _
  have hc0 : (0 : ℤ) ≤ Int.ceil ((size : ℚ) / (n : ℚ)) :=
    Int.ceil_nonneg (by positivity)
  have hq : (size : ℚ) ≤ (n : ℚ) * ((Int.ceil ((size : ℚ) / (n : ℚ)) : ℤ) : ℚ) := by
    rw [div_le_iff₀ hn'] at hceil
    linarith
  zify
  rw [Int.toNat_of_nonneg hc0]
  exact_mod_cast hq

theorem repeat_dataset_to_size_length (l : List α) (size : ℕ) (hl : l ≠ []) :
    (repeat_dataset_to_size l size).length = size := by
  have hn : 0 < l.length := List.length_pos.mpr hl
  simp only [repeat_dataset_to_size, List.length_take, list_repeat_length]
  have := times_to_repeat_spec l.length size hn
  omega

theorem repeat_dataset_to_size_getD (l : List α) (d : α) (size : ℕ) (hl : l ≠ [])
    (i : ℕ) (hi : i < size) :
    (repeat_dataset_to_size l size).getD i d = l.getD (i % l.length) d := by
  have hn : 0 < l.length := List.length_pos.mpr hl
  have hsz := times_to_repeat_spec l.length size hn
  simp only [repeat_dataset_to_size]
  rw [List.getD_eq_getElem?_getD, List.getElem?_take, if_pos hi, ← List.getD_eq_getElem?_getD]
  exact list_repeat_getD l d _ i (by omega)

/-- C7: for a non-empty dataset of `n` elements and any requested `size`,
`repeat_dataset_to_size` returns exactly `size` elements whose `i`-th
element is the original dataset's element at index `i % n`. -/
theorem repeat_dataset_to_size_spec (l : List ℚ) (size : ℕ) (hl : l ≠ []) :
    (repeat_dataset_to_size l size).length = size ∧
    ∀ i, i < size → (repeat_dataset_to_size l size).getD i 0 = l.getD (i % l.length) 0 :=
  ⟨repeat_dataset_to_size_length l size hl,
   fun i hi => repeat_dataset_to_size_getD l 0 size hl i hi⟩

theorem repeat_dataset_to_size_spec_witness :
    ([4, 7, 9] : List ℚ) ≠ [] ∧
    ((repeat_dataset_to_size ([4, 7, 9] : List ℚ) 7).length = 7 ∧
     ∀ i, i < 7 →
       (repeat_dataset_to_size ([4, 7, 9] : List ℚ) 7).getD i 0 =
         ([4, 7, 9] : List ℚ).getD (i % ([4, 7, 9] : List ℚ).length) 0) :=
  ⟨by decide, repeat_dataset_to_size_spec ([4, 7, 9] : List ℚ) 7 (by decide)⟩

/-! ## `LightcurveDatabase.get_ratio_enforced_dataset` (src/lightcurve_database.py)

Python's `int()` on a non-negative rational truncates toward zero; it is
embedded as `py_int`.  `len(list(dataset))` is the list length and
`a.concatenate(b)` is list append.  The source computes the desired
negative count as `int((1 / ratio) * positive_count)`. -/

def py_int (q : ℚ) : ℤ := Int.tdiv q.num (q.den : ℤ)

def get_ratio_enforced_dataset (pos neg : List ℚ) (r? : Option ℚ) : List ℚ :=
  match r? with
  | none => pos ++ neg
  | some r =>
    let positive_count := pos.length
    let negative_count := neg.length
    let existing := (positive_count : ℚ) / (negative_count : ℚ)
    if existing < r then
      let desired_number_of_positive_examples := (py_int (r * (negative_count : ℚ))).toNat
      repeat_dataset_to_size pos desired_number_of_positive_examples ++ neg
    else
      let desired_number_of_negative_examples := (py_int ((1 / r) * (positive_count : ℚ))).toNat
      pos ++ repeat_dataset_to_size neg desired_number_of_negative_examples

/-- C3: with a `none` ratio the datasets are concatenated unchanged
(positives first); with ratio `r > 0`, if `positive_count / negative_count
< r` the positive dataset is repeated and truncated to exactly
`int(r * negative_count)` examples and the negative dataset is unchanged,
and otherwise the negative dataset is repeated and truncated to exactly
`int(positive_count / r)` examples and the positive dataset is
unchanged. -/
theorem get_ratio_enforced_dataset_spec (pos neg : List ℚ) (r : ℚ)
    (hpos : pos ≠ []) (hneg : neg ≠ []) (_hr : 0 < r) :
    get_ratio_enforced_dataset pos neg none = pos ++ neg ∧
    ((pos.length : ℚ) / (neg.length : ℚ) < r →
      get_ratio_enforced_dataset pos neg (some r) =
        repeat_dataset_to_size pos (py_int (r * (neg.length : ℚ))).toNat ++ neg ∧
      (repeat_dataset_to_size pos (py_int (r * (neg.length : ℚ))).toNat).length =
        (py_int (r * (neg.length : ℚ))).toNat) ∧
    (¬ (pos.length : ℚ) / (neg.length : ℚ) < r →
      get_ratio_enforced_dataset pos neg (some r) =
        pos ++ repeat_dataset_to_size neg (py_int ((pos.length : ℚ) / r)).toNat ∧
      (repeat_dataset_to_size neg (py_int ((pos.length : ℚ) / r)).toNat).length =
        (py_int ((pos.length : ℚ) / r)).toNat) := by
  refine ⟨rfl, fun h => ⟨?_, ?_⟩, fun h => ⟨?_, ?_⟩⟩
  · simp only [get_ratio_enforced_dataset, if_pos h]
  · exact repeat_dataset_to_size_length pos _ hpos
  · simp only [get_ratio_enforced_dataset, if_neg h, one_div_mul_eq_div]
  · exact repeat_dataset_to_size_length neg _ hneg

theorem get_ratio_enforced_dataset_spec_witness :
    (([2] : List ℚ) ≠ [] ∧ ([5, 6] : List ℚ) ≠ [] ∧ (0 : ℚ) < 1) ∧
    (get_ratio_enforced_dataset [2] [5, 6] none = ([2] : List ℚ) ++ [5, 6] ∧
     ((([2] : List ℚ).length : ℚ) / ((([5, 6] : List ℚ).length : ℚ)) < 1 →
       get_ratio_enforced_dataset [2] [5, 6] (some 1) =
         repeat_dataset_to_size ([2] : List ℚ) (py_int (1 * ((([5, 6] : List ℚ).length : ℚ)))).toNat ++ [5, 6] ∧
       (repeat_dataset_to_size ([2] : List ℚ) (py_int (1 * ((([5, 6] : List ℚ).length : ℚ)))).toNat).length =
         (py_int (1 * ((([5, 6] : List ℚ).length : ℚ)))).toNat) ∧
     (¬ (([2] : List ℚ).length : ℚ) / ((([5, 6] : List ℚ).length : ℚ)) < 1 →
       get_ratio_enforced_dataset [2] [5, 6] (some 1) =
         ([2] : List ℚ) ++ repeat_dataset_to_size ([5, 6] : List ℚ) (py_int ((([2] : List ℚ).length : ℚ) / 1)).toNat ∧
       (repeat_dataset_to_size ([5, 6] : List ℚ) (py_int ((([2] : List ℚ).length : ℚ) / 1)).toNat).length =
         (py_int ((([2] : List ℚ).length : ℚ) / 1)).toNat)) :=
  ⟨⟨by decide, by decide, by norm_num⟩,
   get_ratio_enforced_dataset_spec [2] [5, 6] 1 (by decide) (by decide) (by norm_num)⟩

/-! ## `TessTransitLightcurveLabelPerTimeStepDatabase.load_fluxes_and_times_from_fits_file`
(src/ramjet/photometric_database/tess_transit_lightcurve_label_per_time_step_database.py)

The two columns of the FITS extension table are embedded as lists of
`Option ℚ`, `none` standing for a NaN entry.  `np.union1d` of the two
`argwhere` results is the sorted duplicate-free list of indexes at which
either column is NaN; it is computed as a filter over `List.range`.
`np.delete(a, idxs)` removes the elements of `a` whose positions occur in
`idxs`, keeping the order of the rest; the failed `assert` on mismatched
shapes is embedded as `none`. -/

def np_delete_from (k : ℕ) (xs : List α) (idxs : List ℕ) : List α :=
  match xs with
  | [] => []
  | x :: rest =>
    if idxs.contains k then np_delete_from (k + 1) rest idxs
    else x :: np_delete_from (k + 1) rest idxs

def np_delete (xs : List α) (idxs : List ℕ) : List α := np_delete_from 0 xs idxs

def load_fluxes_and_times_from_fits_file (fluxes times : List (Option ℚ)) :
    Option (List (Option ℚ) × List (Option ℚ)) :=
  if times.length = fluxes.length then
    let nan_indexes := (List.range fluxes.length).filter
      (fun i => (fluxes.getD i none).isNone || (times.getD i none).isNone)
    some (np_delete fluxes nan_indexes, np_delete times nan_indexes)
  else none

theorem np_delete_from_zip (idxs : List ℕ) :
    ∀ (fs ts : List (Option ℚ)) (k : ℕ), fs.length = ts.length →
    (∀ j, j < fs.length →
      idxs.contains (k + j) = ((fs.getD j none).isNone || (ts.getD j none).isNone)) →
    np_delete_from k fs idxs =
      ((fs.zip ts).filter (fun p => p.1.isSome && p.2.isSome)).map Prod.fst ∧
    np_delete_from k ts idxs =
      ((fs.zip ts).filter (fun p => p.1.isSome && p.2.isSome)).map Prod.snd := by
  intro fs
  induction fs with
  | nil =>
    intro ts k hlen _
    have : ts = [] := List.eq_nil_of_length_eq_zero (by simpa using hlen.symm)
    subst this
    simp [np_delete_from]
  | cons f fs ih =>
    intro ts k hlen hbad
    match ts with
    | [] => simp at hlen
    | t :: ts =>
      have hlen' : fs.length = ts.length := by simpa using hlen
      have h0 := hbad 0 (by simp)
      simp only [Nat.add_zero, List.getD_cons_zero] at h0
      have hshift : ∀ j, j < fs.length →
          idxs.contains ((k + 1) + j) =
            ((fs.getD j none).isNone || (ts.getD j none).isNone) := by
        intro j hj
        have := hbad (j + 1) (by simpa using Nat.succ_lt_succ hj)
        simpa [Nat.add_comm, Nat.add_assoc, Nat.add_left_comm] using this
      have hrec := ih ts (k + 1) hlen' hshift
      by_cases hnan : (f.isNone || t.isNone : Bool) = true
      · have hkeep : (f.isSome && t.isSome : Bool) = false := by
          rcases f with _ | a <;> rcases t with _ | b <;> simp_all
        rw [np_delete_from, np_delete_from, h0, if_pos hnan, if_pos hnan]
        simpa [hkeep] using hrec
      · have hnanF : (f.isNone || t.isNone : Bool) = false := Bool.eq_false_iff.mpr hnan
        have hf : f.isSome = true := by
          rcases f with _ | a
          · simp at hnanF
          · rfl
        have ht : t.isSome = true := by
          rcases t with _ | b
          · simp at hnanF
          · rfl
        have hkeep : (f.isSome && t.isSome : Bool) = true := by rw [hf, ht]; rfl
        have hnan' : idxs.contains k = false := by rw [h0, hnanF]
        rw [np_delete_from, np_delete_from, hnan']
        simp only [Bool.false_eq_true, if_false]
        refine ⟨?_, ?_⟩
        · rw [hrec.1]; simp [hkeep]
        · rw [hrec.2]; simp [hkeep]

theorem contains_filter_range (N : ℕ) (bad : ℕ → Bool) (i : ℕ) (hi : i < N) :
    ((List.range N).filter bad).contains i = bad i := by
  by_cases h : bad i = true
  · rw [h]
    exact List.elem_iff.mpr (List.mem_filter.mpr ⟨List.mem_range.mpr hi, h⟩)
  · have h' : bad i = false := Bool.eq_false_iff.mpr h
    rw [h']
    cases hb : ((List.range N).filter bad).contains i
    · rfl
    · exact absurd (List.mem_filter.mp (List.elem_iff.mp hb)).2 h

/-- C8: `load_fluxes_and_times_from_fits_file` returns a flux array and a
time array of equal length, obtained by deleting from both columns every
index at which either the flux or the time value is NaN, preserving the
order of the remaining elements. -/
theorem load_fluxes_and_times_from_fits_file_spec (fluxes times : List (Option ℚ))
    (h : times.length = fluxes.length) :
    load_fluxes_and_times_from_fits_file fluxes times =
      some (((fluxes.zip times).filter (fun p => p.1.isSome && p.2.isSome)).map Prod.fst,
            ((fluxes.zip times).filter (fun p => p.1.isSome && p.2.isSome)).map Prod.snd) ∧
    ∀ fs ts, load_fluxes_and_times_from_fits_file fluxes times = some (fs, ts) →
      fs.length = ts.length := by
  have hbad : ∀ j, j < fluxes.length →
      ((List.range fluxes.length).filter
        (fun i => (fluxes.getD i none).isNone || (times.getD i none).isNone)).contains (0 + j) =
        ((fluxes.getD j none).isNone || (times.getD j none).isNone) := by
    intro j hj
    rw [Nat.zero_add]
    exact contains_filter_range fluxes.length _ j hj
  have hzip := np_delete_from_zip
    ((List.range fluxes.length).filter
      (fun i => (fluxes.getD i none).isNone || (times.getD i none).isNone))
    fluxes times 0 h.symm hbad
  have hres : load_fluxes_and_times_from_fits_file fluxes times =
      some (((fluxes.zip times).filter (fun p => p.1.isSome && p.2.isSome)).map Prod.fst,
            ((fluxes.zip times).filter (fun p => p.1.isSome && p.2.isSome)).map Prod.snd) := by
    simp only [load_fluxes_and_times_from_fits_file, if_pos h, np_delete]
    rw [hzip.1, hzip.2]
  refine ⟨hres, fun fs ts hfs => ?_⟩
  rw [hres] at hfs
  have hfs' := Option.some.inj hfs
  have h1 : fs = ((fluxes.zip times).filter (fun p => p.1.isSome && p.2.isSome)).map Prod.fst :=
    (congrArg Prod.fst hfs').symm
  have h2 : ts = ((fluxes.zip times).filter (fun p => p.1.isSome && p.2.isSome)).map Prod.snd :=
    (congrArg Prod.snd hfs').symm
  rw [h1, h2, List.length_map, List.length_map]

theorem load_fluxes_and_times_from_fits_file_spec_witness :
    ([some 1, none, some 3] : List (Option ℚ)).length =
      ([some 5, some 6, none] : List (Option ℚ)).length ∧
    (load_fluxes_and_times_from_fits_file [some 5, some 6, none] [some 1, none, some 3] =
      some (((([some 5, some 6, none] : List (Option ℚ)).zip
                ([some 1, none, some 3] : List (Option ℚ))).filter
              (fun p => p.1.isSome && p.2.isSome)).map Prod.fst,
            ((([some 5, some 6, none] : List (Option ℚ)).zip
                ([some 1, none, some 3] : List (Option ℚ))).filter
              (fun p => p.1.isSome && p.2.isSome)).map Prod.snd) ∧
     ∀ fs ts,
       load_fluxes_and_times_from_fits_file [some 5, some 6, none] [some 1, none, some 3] =
         some (fs, ts) → fs.length = ts.length) :=
  ⟨by decide,
   load_fluxes_and_times_from_fits_file_spec [some 5, some 6, none] [some 1, none, some 3]
     (by decide)⟩

/-! ## `LightcurveDatabase.remove_bad_files` (src/lightcurve_database.py)

IEEE-754 values as numpy sees them are embedded as `FloatVal`: a finite
rational, `inf`, `-inf` or NaN.  `np.max`/`np.min` propagate NaN, the
float comparison `==` is false whenever either side is NaN, `np.isfinite`
holds only for finite values and `np.isnan` only for NaN.  `np.max` of an
empty array raises, embedded as a `none` result for the whole call. -/

inductive FloatVal
  | nanV : FloatVal
  | infV : FloatVal
  | negInfV : FloatVal
  | finite : ℚ → FloatVal
  deriving DecidableEq

def fmax : FloatVal → FloatVal → FloatVal
  | .nanV, _ => .nanV
  | _, .nanV => .nanV
  | .infV, _ => .infV
  | _, .infV => .infV
  | .negInfV, b => b
  | a, .negInfV => a
  | .finite a, .finite b => .finite (max a b)

def fmin : FloatVal → FloatVal → FloatVal
  | .nanV, _ => .nanV
  | _, .nanV => .nanV
  | .negInfV, _ => .negInfV
  | _, .negInfV => .negInfV
  | .infV, b => b
  | a, .infV => a
  | .finite a, .finite b => .finite (min a b)

def np_max : List FloatVal → FloatVal
  | [] => .nanV
  | x :: xs => xs.foldl fmax x

def np_min : List FloatVal → FloatVal
  | [] => .nanV
  | x :: xs => xs.foldl fmin x

def feq : FloatVal → FloatVal → Bool
  | .nanV, _ => false
  | _, .nanV => false
  | .infV, .infV => true
  | .negInfV, .negInfV => true
  | .finite a, .finite b => a == b
  | _, _ => false

def is_finite_val : FloatVal → Bool
  | .finite _ => true
  | _ => false

def is_nan_val : FloatVal → Bool
  | .nanV => true
  | _ => false

def remove_bad_files : List (String × List FloatVal) → Option (List String)
  | [] => some []
  | (file_path, array) :: rest =>
    if array = [] then none
    else
      (remove_bad_files rest).map (fun new_file_path_list =>
        if feq (np_max array) (np_min array) then new_file_path_list
        else if !(array.all is_finite_val) then new_file_path_list
        else if array.any is_nan_val then new_file_path_list
        else file_path :: new_file_path_list)

theorem all_finite_no_nan (array : List FloatVal) (h : array.all is_finite_val = true) :
    array.any is_nan_val = false := by
  induction array with
  | nil => rfl
  | cons x xs ih =>
    rw [List.all_cons, Bool.and_eq_true] at h
    rw [List.any_cons, ih h.2, Bool.or_false]
    cases x <;> first | rfl | exact absurd h.1 (by simp [is_finite_val])

/-- C9: `remove_bad_files` returns exactly those input file paths, in
their original order, whose arrays are not constant (numpy maximum
differs from numpy minimum) and contain only finite values; the separate
NaN check never excludes an additional file, because an array that passes
the finiteness check contains no NaN values. -/
theorem remove_bad_files_spec (files : List (String × List FloatVal))
    (h : ∀ f ∈ files, f.2 ≠ []) :
    remove_bad_files files =
      some ((files.filter
        (fun f => !(feq (np_max f.2) (np_min f.2)) && f.2.all is_finite_val)).map Prod.fst) := by
  induction files with
  | nil => rfl
  | cons f rest ih =>
    obtain ⟨file_path, array⟩ := f
    have hne : array ≠ [] := h (file_path, array) (List.mem_cons_self _ _)
    have hrest := ih (fun g hg => h g (List.mem_cons_of_mem _ hg))
    rw [remove_bad_files, if_neg hne, hrest, Option.map_some']
    by_cases hconst : feq (np_max array) (np_min array) = true
    · rw [if_pos hconst, List.filter_cons]
      simp [hconst]
    · have hconst' : feq (np_max array) (np_min array) = false := Bool.eq_false_iff.mpr hconst
      rw [if_neg hconst, List.filter_cons]
      by_cases hfin : array.all is_finite_val = true
      · rw [if_neg (by rw [hfin]; simp), if_neg (by rw [all_finite_no_nan array hfin]; simp)]
        simp [hconst', hfin]
      · have hfin' : array.all is_finite_val = false := Bool.eq_false_iff.mpr hfin
        rw [if_pos (by rw [hfin']; rfl)]
        simp [hconst', hfin']

theorem remove_bad_files_spec_witness :
    (∀ f ∈ [("a", [FloatVal.finite 1, FloatVal.finite 2]),
            ("b", [FloatVal.finite 3, FloatVal.finite 3]),
            ("c", [FloatVal.finite 1, FloatVal.nanV]),
            ("d", [FloatVal.finite 0, FloatVal.infV])], f.2 ≠ []) ∧
    remove_bad_files
        [("a", [FloatVal.finite 1, FloatVal.finite 2]),
         ("b", [FloatVal.finite 3, FloatVal.finite 3]),
         ("c", [FloatVal.finite 1, FloatVal.nanV]),
         ("d", [FloatVal.finite 0, FloatVal.infV])] =
      some (([("a", [FloatVal.finite 1, FloatVal.finite 2]),
              ("b", [FloatVal.finite 3, FloatVal.finite 3]),
              ("c", [FloatVal.finite 1, FloatVal.nanV]),
              ("d", [FloatVal.finite 0, FloatVal.infV])].filter
          (fun f => !(feq (np_max f.2) (np_min f.2)) && f.2.all is_finite_val)).map Prod.fst) :=
  ⟨by decide, remove_bad_files_spec _ (by decide)⟩

/-! ## `TessTransitLightcurveLabelPerTimeStepDatabase.generate_label`
(src/ramjet/photometric_database/tess_transit_lightcurve_label_per_time_step_database.py)

The metadata frame rows are embedded as `PlanetMetaData` records and the
time values as exact rationals.  numpy's float `%` is the floored modulo
`x - y * ⌊x / y⌋`, `np.zeros_like(times, dtype=bool)` is the all-`false`
vector, and `|` on boolean vectors is the element-wise `or` (`zipWith`).
The row filter `meta_data_frame['lightcurve_path'] == example_path`
followed by `iterrows` is a list filter followed by a fold. -/

structure PlanetMetaData where
  lightcurve_path : String
  transit_epoch : ℚ
  transit_duration : ℚ
  transit_period : ℚ

def np_mod (x y : ℚ) : ℚ := x - y * ⌊x / y⌋

def planet_is_transiting (planet_meta_data : PlanetMetaData) (t : ℚ) : Bool :=
  let transit_tess_epoch := planet_meta_data.transit_epoch - 2457000
  let epoch_time := t - transit_tess_epoch
  let transit_duration := planet_meta_data.transit_duration / 24
  let half_duration := transit_duration / 2
  if planet_meta_data.transit_period = 0 then
    decide (-half_duration < epoch_time ∧ epoch_time < half_duration)
  else
    decide (np_mod (epoch_time + half_duration) planet_meta_data.transit_period < transit_duration)

def generate_label (meta_data_frame : List PlanetMetaData) (example_path : String)
    (times : List ℚ) : List Bool :=
  let planets_meta_data := meta_data_frame.filter
    (fun row => row.lightcurve_path == example_path)
  planets_meta_data.foldl
    (fun any_planet_is_transiting planet_meta_data =>
      List.zipWith or any_planet_is_transiting (times.map (planet_is_transiting planet_meta_data)))
    (times.map (fun _ => false))

/-- The claim's per-time-step characterization, written independently of
the fold: time `t` is labeled `true` exactly when some metadata row for
the path is transiting at `t`. -/
def transiting_label (meta_data_frame : List PlanetMetaData) (example_path : String)
    (times : List ℚ) : List Bool :=
  times.map (fun t => meta_data_frame.any
    (fun row => (row.lightcurve_path == example_path) && planet_is_transiting row t))

theorem zipWith_or_comp (f g : ℚ → Bool) (acc : List Bool) (times : List ℚ) :
    List.zipWith (fun a t => a || g t) (List.zipWith (fun a t => a || f t) acc times) times =
      List.zipWith (fun a t => a || (f t || g t)) acc times := by
  induction acc generalizing times with
  | nil => simp
  | cons a acc ih =>
    cases times with
    | nil => simp
    | cons t times => simp [ih, Bool.or_assoc]

theorem zipWith_or_false (acc : List Bool) (times : List ℚ) (h : acc.length = times.length) :
    List.zipWith (fun a (_ : ℚ) => a) acc times = acc := by
  induction acc generalizing times with
  | nil => simp
  | cons a acc ih =>
    cases times with
    | nil => simp at h
    | cons t times =>
      simp only [List.length_cons, Nat.add_right_cancel_iff] at h
      simp [ih times h]

theorem generate_label_fold (times : List ℚ) (rows : List PlanetMetaData) (acc : List Bool)
    (h : acc.length = times.length) :
    rows.foldl
      (fun any_planet_is_transiting planet_meta_data =>
        List.zipWith or any_planet_is_transiting
          (times.map (planet_is_transiting planet_meta_data)))
      acc =
    List.zipWith (fun a t => a || rows.any (fun row => planet_is_transiting row t)) acc times := by
  induction rows generalizing acc with
  | nil =>
    simp only [List.foldl_nil, List.any_nil, Bool.or_false]
    exact (zipWith_or_false acc times h).symm
  | cons r rs ih =>
    have hstep : (List.zipWith or acc (times.map (planet_is_transiting r))).length =
        times.length := by
      simp [List.length_zipWith, h]
    rw [List.foldl_cons, ih _ hstep, List.zipWith_map_right]
    rw [zipWith_or_comp (planet_is_transiting r)
      (fun t => rs.any (fun row => planet_is_transiting row t)) acc times]
    simp only [List.any_cons]

/-- C4: `generate_label` labels time `t` as `true` if and only if some
metadata row for the path is transiting at `t`: for `transit_period = 0`
when `t` minus the BTJD-converted epoch lies strictly between plus and
minus half the day-converted duration, for nonzero period when
`((t - epoch) + half_duration) mod transit_period < transit_duration`;
with no matching row every label is `false`. -/
theorem generate_label_spec (meta_data_frame : List PlanetMetaData) (example_path : String)
    (times : List ℚ) :
    generate_label meta_data_frame example_path times =
      transiting_label meta_data_frame example_path times ∧
    ((∀ row ∈ meta_data_frame, row.lightcurve_path ≠ example_path) →
      generate_label meta_data_frame example_path times = times.map (fun _ => false)) := by
  have hmain : generate_label meta_data_frame example_path times =
      transiting_label meta_data_frame example_path times := by
    rw [generate_label, generate_label_fold _ _ _ (by simp), transiting_label]
    rw [List.zipWith_map_left, List.zipWith_same]
    refine List.map_congr_left (fun t _ => ?_)
    rw [Bool.false_or, List.any_filter]
  refine ⟨hmain, fun hnone => ?_⟩
  rw [hmain, transiting_label]
  refine List.map_congr_left (fun t _ => ?_)
  rw [List.any_eq_false]
  intro row hrow
  have : (row.lightcurve_path == example_path) = false :=
    beq_eq_false_iff_ne.mpr (hnone row hrow)
  rw [this, Bool.false_and]
  exact Bool.false_ne_true

theorem generate_label_spec_witness :
    (∀ row ∈ [PlanetMetaData.mk "q" 2457001 12 0], row.lightcurve_path ≠ "p") ∧
    (generate_label [PlanetMetaData.mk "q" 2457001 12 0] "p" [0, 1] =
       transiting_label [PlanetMetaData.mk "q" 2457001 12 0] "p" [0, 1] ∧
     ((∀ row ∈ [PlanetMetaData.mk "q" 2457001 12 0], row.lightcurve_path ≠ "p") →
       generate_label [PlanetMetaData.mk "q" 2457001 12 0] "p" [0, 1] =
         ([0, 1] : List ℚ).map (fun _ => false))) :=
  ⟨by simp, generate_label_spec [PlanetMetaData.mk "q" 2457001 12 0] "p" [0, 1]⟩

/-! ## `TessLightCurve` retried catalog operations
(src/ramjet/photometric_database/tess_light_curve.py)

`sky_coord`, `tess_magnitude` and `get_ffi_time_series_from_tess_cut` are
each decorated with `retry(retry_on_exception=is_common_mast_connection_error)`.
The external service is embedded as an oracle list of attempt outcomes
(one entry per call of the wrapped body: a returned value or a raised
exception); the `retrying` library consults the predicate on each raised
exception, retrying on `true` and re-raising on `false`, with no stop
condition (exhausting the oracle is `none`). -/

structure MastException where
  isCommonConnectionError : Bool
  deriving DecidableEq

/-- Modelled from the spec: `is_common_mast_connection_error` is imported
from `ramjet.data_interface.tess_data_interface`, a module that is not
among the provided sources.  The spec describes it only as the classifier
of the flaky network errors of the external astronomical catalog service,
so it is embedded as the exception's own classification flag. -/
def is_common_mast_connection_error (e : MastException) : Bool :=
  e.isCommonConnectionError

def retry_run (p : MastException → Bool) :
    List (Except MastException α) → Option (Except MastException α)
  | [] => none
  | .ok a :: _ => some (.ok a)
  | .error e :: rest =>
    if p e then retry_run p rest else some (.error e)

structure SkyCoord where
  ra : ℚ
  dec : ℚ
  deriving DecidableEq

def sky_coord (attempts : List (Except MastException SkyCoord)) :
    Option (Except MastException SkyCoord) :=
  retry_run is_common_mast_connection_error attempts

def tess_magnitude (attempts : List (Except MastException ℚ)) :
    Option (Except MastException ℚ) :=
  retry_run is_common_mast_connection_error attempts

def get_ffi_time_series_from_tess_cut (attempts : List (Except MastException ℕ)) :
    Option (Except MastException ℕ) :=
  retry_run is_common_mast_connection_error attempts

theorem retry_run_error (p : MastException → Bool) (e : MastException)
    (rest : List (Except MastException α)) :
    retry_run p (.error e :: rest) =
      if p e then retry_run p rest else some (.error e) := rfl

/-- C6: each catalog operation, on an exception classified as a common
MAST connection error, is retried with the next attempt; on an exception
not so classified, the exception propagates immediately without a retry;
a successful attempt is returned as is. -/
theorem mast_retry_spec (e : MastException) :
    (∀ rest : List (Except MastException SkyCoord),
      sky_coord (.error e :: rest) =
        if is_common_mast_connection_error e then sky_coord rest
        else some (.error e)) ∧
    (∀ rest : List (Except MastException ℚ),
      tess_magnitude (.error e :: rest) =
        if is_common_mast_connection_error e then tess_magnitude rest
        else some (.error e)) ∧
    (∀ rest : List (Except MastException ℕ),
      get_ffi_time_series_from_tess_cut (.error e :: rest) =
        if is_common_mast_connection_error e then get_ffi_time_series_from_tess_cut rest
        else some (.error e)) ∧
    (∀ (a : SkyCoord) (rest : List (Except MastException SkyCoord)),
      sky_coord (.ok a :: rest) = some (.ok a)) :=
  ⟨fun _ => rfl, fun _ => rfl, fun _ => rfl, fun _ _ => rfl⟩

/-! ## `LightcurveDatabase.normalize` (src/lightcurve_database.py)

`np.log1p` is transcendental, so this function is embedded over `ℝ`
(`Real.log (1 + x)`).  `np.min`/`np.max` of a non-empty array are the
least/greatest element; `lightcurve -= np.min(...)` subtracts the minimum
from every element, `np.log1p` produces a new array, and the division by
`array_max` happens only when `array_max != 0`. -/

noncomputable def list_min : List ℝ → ℝ
  | [] => 0
  | [x] => x
  | x :: y :: t => min x (list_min (y :: t))

noncomputable def list_max : List ℝ → ℝ
  | [] => 0
  | [x] => x
  | x :: y :: t => max x (list_max (y :: t))

noncomputable def normalize (lightcurve : List ℝ) : List ℝ :=
  let m := list_min lightcurve
  let shifted := lightcurve.map (fun x => x - m)
  let logged := shifted.map (fun x => Real.log (1 + x))
  let array_max := list_max logged
  if array_max ≠ 0 then logged.map (fun x => x / array_max) else logged

theorem list_max_mem (l : List ℝ) (hl : l ≠ []) : list_max l ∈ l := by
  induction l with
  | nil => exact absurd rfl hl
  | cons x t ih =>
    cases t with
    | nil => simp [list_max]
    | cons y t' =>
      rw [list_max]
      rcases le_total x (list_max (y :: t')) with h | h
      · rw [max_eq_right h]
        exact List.mem_cons_of_mem _ (ih (by simp))
      · rw [max_eq_left h]
        exact List.mem_cons_self _ _

theorem le_list_max (l : List ℝ) (x : ℝ) (hx : x ∈ l) : x ≤ list_max l := by
  induction l with
  | nil => simp at hx
  | cons a t ih =>
    cases t with
    | nil =>
      rw [List.mem_singleton] at hx
      rw [hx, list_max]
    | cons y t' =>
      rw [list_max]
      rcases List.mem_cons.mp hx with h | h
      · rw [h]; exact le_max_left _ _
      · exact le_trans (ih h) (le_max_right _ _)

theorem list_max_le (l : List ℝ) (b : ℝ) (hl : l ≠ []) (h : ∀ x ∈ l, x ≤ b) :
    list_max l ≤ b :=
  h _ (list_max_mem l hl)

theorem list_min_mem (l : List ℝ) (hl : l ≠ []) : list_min l ∈ l := by
  induction l with
  | nil => exact absurd rfl hl
  | cons x t ih =>
    cases t with
    | nil => simp [list_min]
    | cons y t' =>
      rw [list_min]
      rcases le_total x (list_min (y :: t')) with h | h
      · rw [min_eq_left h]
        exact List.mem_cons_self _ _
      · rw [min_eq_right h]
        exact List.mem_cons_of_mem _ (ih (by simp))

theorem list_min_le (l : List ℝ) (x : ℝ) (hx : x ∈ l) : list_min l ≤ x := by
  induction l with
  | nil => simp at hx
  | cons a t ih =>
    cases t with
    | nil =>
      rw [List.mem_singleton] at hx
      rw [hx, list_min]
    | cons y t' =>
      rw [list_min]
      rcases List.mem_cons.mp hx with h | h
      · rw [h]; exact min_le_left _ _
      · exact le_trans (min_le_right _ _) (ih h)

theorem le_list_min (l : List ℝ) (b : ℝ) (hl : l ≠ []) (h : ∀ x ∈ l, b ≤ x) :
    b ≤ list_min l :=
  h _ (list_min_mem l hl)

/-- C1: on a non-empty array, `normalize` subtracts the minimum, applies
`log1p`, and divides by the resulting maximum unless it is zero; every
output value lies in `[0, 1]`, the minimum output is `0`, a non-constant
input yields maximum output `1`, and a constant input yields the all-zero
output with the division skipped. -/
theorem normalize_spec (l : List ℝ) (hl : l ≠ []) :
    (normalize l).length = l.length ∧
    (∀ x ∈ normalize l, 0 ≤ x ∧ x ≤ 1) ∧
    list_min (normalize l) = 0 ∧
    ((∃ x ∈ l, x ≠ list_min l) → list_max (normalize l) = 1) ∧
    ((∀ x ∈ l, x = list_min l) → normalize l = l.map (fun _ => 0)) := by
  have hnorm : normalize l =
      if list_max ((l.map (fun x => x - list_min l)).map (fun x => Real.log (1 + x))) ≠ 0 then
        ((l.map (fun x => x - list_min l)).map (fun x => Real.log (1 + x))).map
          (fun x => x / list_max ((l.map (fun x => x - list_min l)).map (fun x => Real.log (1 + x))))
      else (l.map (fun x => x - list_min l)).map (fun x => Real.log (1 + x)) := rfl
  set m := list_min l with hm
  set shifted := l.map (fun x => x - m) with hshifted
  set logged := shifted.map (fun x => Real.log (1 + x)) with hlogged
  set mx := list_max logged with hmx
  have hlogged_ne : logged ≠ [] := by
    simp only [hlogged, hshifted, ne_eq, List.map_eq_nil_iff]
    exact hl
  have hshift_nonneg : ∀ y ∈ shifted, 0 ≤ y := by
    intro y hy
    obtain ⟨x, hxl, hxy⟩ := List.mem_map.mp hy
    have := list_min_le l x hxl
    rw [← hxy]
    linarith
  have hzero_shifted : (0 : ℝ) ∈ shifted :=
    List.mem_map.mpr ⟨m, list_min_mem l hl, sub_self m⟩
  have hlog_nonneg : ∀ z ∈ logged, 0 ≤ z := by
    intro z hz
    obtain ⟨y, hys, hyz⟩ := List.mem_map.mp hz
    have := hshift_nonneg y hys
    rw [← hyz]
    exact Real.log_nonneg (by linarith)
  have hzero_logged : (0 : ℝ) ∈ logged :=
    List.mem_map.mpr ⟨0, hzero_shifted, by simp⟩
  have hmx_nonneg : 0 ≤ mx := le_list_max logged 0 hzero_logged
  have hlen_logged : logged.length = l.length := by
    rw [hlogged, hshifted, List.length_map, List.length_map]
  have hconst_mx : (∀ x ∈ l, x = m) → mx = 0 := by
    intro hc
    have hall : ∀ z ∈ logged, z = 0 := by
      intro z hz
      obtain ⟨y, hys, hyz⟩ := List.mem_map.mp hz
      obtain ⟨x, hxl, hxy⟩ := List.mem_map.mp hys
      rw [hc x hxl] at hxy
      rw [← hyz, ← hxy, sub_self]
      simp
    exact le_antisymm (list_max_le logged 0 hlogged_ne (fun z hz => le_of_eq (hall z hz)))
      (le_list_max logged 0 hzero_logged)
  have hnonconst_mx : (∃ x ∈ l, x ≠ m) → 0 < mx := by
    rintro ⟨x, hxl, hxm⟩
    have hlt : m < x := lt_of_le_of_ne (list_min_le l x hxl) (Ne.symm hxm)
    have hys : x - m ∈ shifted := List.mem_map.mpr ⟨x, hxl, rfl⟩
    have hz : Real.log (1 + (x - m)) ∈ logged := List.mem_map.mpr ⟨x - m, hys, rfl⟩
    have hpos : 0 < Real.log (1 + (x - m)) := Real.log_pos (by linarith)
    exact lt_of_lt_of_le hpos (le_list_max logged _ hz)
  by_cases hespace : mx ≠ 0
  · have hmx_pos : 0 < mx := lt_of_le_of_ne hmx_nonneg (Ne.symm hespace)
    have hout : normalize l = logged.map (fun x => x / mx) := by
      rw [hnorm, if_pos]
      exact hespace
    refine ⟨?_, ?_, ?_, ?_, ?_⟩
    · rw [hout, List.length_map, hlen_logged]
    · intro w hw
      rw [hout] at hw
      obtain ⟨z, hz, hzw⟩ := List.mem_map.mp hw
      have h0 := hlog_nonneg z hz
      have h1 := le_list_max logged z hz
      constructor
      · rw [← hzw]; positivity
      · rw [← hzw]
        exact (div_le_one hmx_pos).mpr h1
    · have hmem : (0 : ℝ) ∈ normalize l := by
        rw [hout]
        exact List.mem_map.mpr ⟨0, hzero_logged, by simp⟩
      have hlow : ∀ w ∈ normalize l, 0 ≤ w := by
        intro w hw
        rw [hout] at hw
        obtain ⟨z, hz, hzw⟩ := List.mem_map.mp hw
        have := hlog_nonneg z hz
        rw [← hzw]
        positivity
      exact le_antisymm (list_min_le _ 0 hmem)
        (le_list_min _ 0 (by rw [hout]; simp [List.map_eq_nil_iff, hlogged, hshifted, hl]) hlow)
    · intro _
      have hone : (1 : ℝ) ∈ normalize l := by
        rw [hout]
        exact List.mem_map.mpr ⟨mx, list_max_mem logged hlogged_ne, div_self hespace⟩
      have hup : ∀ w ∈ normalize l, w ≤ 1 := by
        intro w hw
        rw [hout] at hw
        obtain ⟨z, hz, hzw⟩ := List.mem_map.mp hw
        have := le_list_max logged z hz
        rw [← hzw]
        exact (div_le_one hmx_pos).mpr this
      exact le_antisymm
        (list_max_le _ 1 (by rw [hout]; simp [List.map_eq_nil_iff, hlogged, hshifted, hl]) hup)
        (le_list_max _ 1 hone)
    · intro hc
      exact absurd (hconst_mx hc) hespace
  · push_neg at hespace
    have hout : normalize l = logged := by
      rw [hnorm, if_neg]
      push_neg
      exact hespace
    have hall : ∀ z ∈ logged, z = 0 := by
      intro z hz
      exact le_antisymm (hespace ▸ le_list_max logged z hz) (hlog_nonneg z hz)
    refine ⟨?_, ?_, ?_, ?_, ?_⟩
    · rw [hout, hlen_logged]
    · intro w hw
      rw [hout] at hw
      rw [hall w hw]
      norm_num
    · rw [hout]
      exact le_antisymm (list_min_le _ 0 hzero_logged)
        (le_list_min _ 0 hlogged_ne (fun z hz => le_of_eq (hall z hz).symm))
    · rintro hx
      exact absurd (hnonconst_mx hx) (by rw [hespace]; exact lt_irrefl 0)
    · intro hc
      rw [hout, hlogged, hshifted, List.map_map]
      refine List.map_congr_left (fun x hx => ?_)
      simp only [Function.comp_apply]
      rw [hc x hx, sub_self]
      simp

theorem normalize_spec_witness :
    (([0, 1] : List ℝ) ≠ []) ∧
    ((normalize [0, 1]).length = ([0, 1] : List ℝ).length ∧
     (∀ x ∈ normalize [0, 1], 0 ≤ x ∧ x ≤ 1) ∧
     list_min (normalize [0, 1]) = 0 ∧
     ((∃ x ∈ ([0, 1] : List ℝ), x ≠ list_min [0, 1]) → list_max (normalize [0, 1]) = 1) ∧
     ((∀ x ∈ ([0, 1] : List ℝ), x = list_min [0, 1]) →
       normalize [0, 1] = ([0, 1] : List ℝ).map (fun _ => 0))) :=
  ⟨by simp, normalize_spec [0, 1] (by simp)⟩

/-! ## In-place behaviour of `LightcurveDatabase.normalize`
(src/lightcurve_database.py)

numpy aliasing is made explicit with a small heap of arrays addressed by
reference.  `lightcurve -= np.min(lightcurve)` is an in-place update of
the caller's array (`heap_set` at the caller's reference);
`lightcurve = np.log1p(lightcurve)` allocates a fresh array and rebinds
the local name (`heap_alloc`); `lightcurve /= array_max` is an in-place
update of whatever the local name now refers to, i.e. the fresh array. -/

structure NumpyHeap where
  arrays : List (List ℝ)

def heap_get (h : NumpyHeap) (r : ℕ) : List ℝ := h.arrays.getD r []

def heap_set (h : NumpyHeap) (r : ℕ) (a : List ℝ) : NumpyHeap := ⟨h.arrays.set r a⟩

def heap_alloc (h : NumpyHeap) (a : List ℝ) : NumpyHeap × ℕ := (⟨h.arrays ++ [a]⟩, h.arrays.length)

noncomputable def normalize_stateful (h : NumpyHeap) (r : ℕ) : NumpyHeap × ℕ :=
  let lightcurve := heap_get h r
  let m := list_min lightcurve
  let subtracted := lightcurve.map (fun x => x - m)
  let h1 := heap_set h r subtracted
  let logged := subtracted.map (fun x => Real.log (1 + x))
  let alloc := heap_alloc h1 logged
  let array_max := list_max logged
  if array_max ≠ 0 then (heap_set alloc.1 alloc.2 (logged.map (fun x => x / array_max)), alloc.2)
  else alloc

theorem set_append_singleton (xs : List α) (a b : α) :
    (xs ++ [a]).set xs.length b = xs ++ [b] := by
  induction xs with
  | nil => rfl
  | cons x xs ih => simp [List.set, ih]

/-- C10: `normalize` mutates its argument in place exactly once: after
the call the caller's array holds the original values with the pre-call
minimum subtracted, while the `log1p` result and its in-place division
live in a newly created array (a different reference), whose final
content is the functional `normalize` result. -/
theorem normalize_stateful_spec (h : NumpyHeap) (r : ℕ) (hr : r < h.arrays.length) :
    heap_get (normalize_stateful h r).1 r =
      (heap_get h r).map (fun x => x - list_min (heap_get h r)) ∧
    (normalize_stateful h r).2 ≠ r ∧
    heap_get (normalize_stateful h r).1 (normalize_stateful h r).2 = normalize (heap_get h r) := by
  set lightcurve := heap_get h r with hlc
  set m := list_min lightcurve with hm
  set subtracted := lightcurve.map (fun x => x - m) with hsub
  set logged := subtracted.map (fun x => Real.log (1 + x)) with hlog
  set mx := list_max logged with hmx
  have hget_sub : ((h.arrays.set r subtracted) ++ [logged]).getD r [] = subtracted := by
    rw [List.getD_append _ _ _ _ (by rw [List.length_set]; exact hr),
      List.getD_eq_getElem?_getD, List.getElem?_set_self (by simpa using hr)]
    rfl
  have hnormfn : normalize lightcurve =
      if mx ≠ 0 then logged.map (fun x => x / mx) else logged := rfl
  by_cases hz : mx ≠ 0
  · have hres : normalize_stateful h r =
        (heap_set (heap_alloc (heap_set h r subtracted) logged).1
          (heap_alloc (heap_set h r subtracted) logged).2 (logged.map (fun x => x / mx)),
         (heap_alloc (heap_set h r subtracted) logged).2) := by
      rw [normalize_stateful]
      simp only [← hlc, ← hm, ← hsub, ← hlog, ← hmx, if_pos hz]
    rw [hres]
    simp only [heap_get, heap_set, heap_alloc]
    refine ⟨?_, ?_, ?_⟩
    · rw [set_append_singleton, List.getD_append _ _ _ _ (by rw [List.length_set]; exact hr),
        List.getD_eq_getElem?_getD, List.getElem?_set_self (by simpa using hr)]
      rfl
    · rw [List.length_set]
      omega
    · rw [set_append_singleton, List.getD_append_right _ _ _ _ (le_refl _), Nat.sub_self]
      rw [hnormfn, if_pos hz]
      rfl
  · have hres : normalize_stateful h r = heap_alloc (heap_set h r subtracted) logged := by
      rw [normalize_stateful]
      simp only [← hlc, ← hm, ← hsub, ← hlog, ← hmx, if_neg hz]
    rw [hres]
    simp only [heap_get, heap_set, heap_alloc]
    refine ⟨hget_sub, ?_, ?_⟩
    · rw [List.length_set]
      omega
    · rw [List.getD_append_right _ _ _ _ (le_refl _), Nat.sub_self]
      rw [hnormfn, if_neg hz]
      rfl

theorem normalize_stateful_spec_witness :
    0 < (NumpyHeap.mk [[1, 2]]).arrays.length ∧
    (heap_get (normalize_stateful (NumpyHeap.mk [[1, 2]]) 0).1 0 =
       (heap_get (NumpyHeap.mk [[1, 2]]) 0).map
         (fun x => x - list_min (heap_get (NumpyHeap.mk [[1, 2]]) 0)) ∧
     (normalize_stateful (NumpyHeap.mk [[1, 2]]) 0).2 ≠ 0 ∧
     heap_get (normalize_stateful (NumpyHeap.mk [[1, 2]]) 0).1
         (normalize_stateful (NumpyHeap.mk [[1, 2]]) 0).2 =
       normalize (heap_get (NumpyHeap.mk [[1, 2]]) 0)) :=
  ⟨by simp, normalize_stateful_spec (NumpyHeap.mk [[1, 2]]) 0 (by simp)⟩

/-! ## `TessLightCurve.get_photometric_variability_centroid_and_frames_from_folding_parameters`
(src/ramjet/photometric_database/tess_light_curve.py)

The TESS-cut target pixel file is embedded as its time values and its
10×10 cutout frames (`download(cutout_size=10)`, `image_side_size = 10`),
with `wcs.pixel_to_world` an abstract pixel-to-sky function.  `np.where`
on the folded phases is a filter over frame indexes, `np.nanmedian(...,
axis=0)` over NaN-free frames is the per-pixel median (average of the two
middle values of the sorted list for even counts), `np.mean(..., axis=0)`
/ `axis=1` are the column / row means, and `np.average(arange(10),
weights=w)` is `Σ i·wᵢ / Σ wᵢ`, raising `ZeroDivisionError` exactly when
`Σ wᵢ = 0` — caught and re-raised as `CentroidAlgorithmFailedError`.
Selecting frame `[0]` of an empty phase-bin selection raises an
`IndexError`, which the function does not catch; the projection of the
result tuple onto its first component (the centroid) is returned. -/

structure TargetPixelFile where
  times : List ℚ
  fluxes : List (ℕ → ℕ → ℚ)
  wcs : ℚ → ℚ → SkyCoord

inductive CentroidError
  | centroidAlgorithmFailed : CentroidError
  | indexError : CentroidError
  deriving DecidableEq

def insert_sorted (x : ℚ) : List ℚ → List ℚ
  | [] => [x]
  | y :: t => if x ≤ y then x :: y :: t else y :: insert_sorted x t

def sort_q (l : List ℚ) : List ℚ := l.foldr insert_sorted []

def median_q (l : List ℚ) : ℚ :=
  let sorted := sort_q l
  if l.length % 2 = 1 then sorted.getD (l.length / 2) 0
  else (sorted.getD (l.length / 2 - 1) 0 + sorted.getD (l.length / 2) 0) / 2

def phase_fold (times : List ℚ) (fold_epoch fold_period : ℚ) : List ℚ :=
  times.map (fun t => np_mod (t - fold_epoch) fold_period)

def bin_indexes (phases : List ℚ) (bin_phase time_bin_size : ℚ) : List ℕ :=
  (List.range phases.length).filter (fun i =>
    decide (phases.getD i 0 > bin_phase - time_bin_size) &&
    decide (phases.getD i 0 < bin_phase + time_bin_size))

def median_frame (fluxes : List (ℕ → ℕ → ℚ)) (sel : List ℕ) (r c : ℕ) : ℚ :=
  median_q (sel.map (fun i => fluxes.getD i (fun _ _ => 0) r c))

def positive_flux_difference (fluxes : List (ℕ → ℕ → ℚ)) (minIdx maxIdx : List ℕ)
    (r c : ℕ) : ℚ :=
  max (median_frame fluxes maxIdx r c - median_frame fluxes minIdx r c) 0

def col_mean (f : ℕ → ℕ → ℚ) (c : ℕ) : ℚ := ((List.range 10).map (fun r => f r c)).sum / 10

def row_mean (f : ℕ → ℕ → ℚ) (r : ℕ) : ℚ := ((List.range 10).map (fun c => f r c)).sum / 10

def weight_sum (w : ℕ → ℚ) : ℚ := ((List.range 10).map w).sum

def np_average_range10 (w : ℕ → ℚ) : ℚ :=
  ((List.range 10).map (fun (i : ℕ) => (i : ℚ) * w i)).sum / weight_sum w

def get_photometric_variability_centroid_from_folding_parameters
    (tess_cut_result : Option TargetPixelFile)
    (fold_epoch fold_period maximum_bin_phase minimum_bin_phase time_bin_size : ℚ) :
    Except CentroidError SkyCoord :=
  match tess_cut_result with
  | none => .error .centroidAlgorithmFailed
  | some target_pixel_file =>
    let phases := phase_fold target_pixel_file.times fold_epoch fold_period
    let minimum_bin_indexes := bin_indexes phases minimum_bin_phase time_bin_size
    let maximum_bin_indexes := bin_indexes phases maximum_bin_phase time_bin_size
    if minimum_bin_indexes = [] then .error .indexError
    else if maximum_bin_indexes = [] then .error .indexError
    else
      let pdiff := positive_flux_difference target_pixel_file.fluxes
        minimum_bin_indexes maximum_bin_indexes
      if weight_sum (col_mean pdiff) = 0 then .error .centroidAlgorithmFailed
      else
        let x_flux_difference_centroid := np_average_range10 (col_mean pdiff)
        if weight_sum (row_mean pdiff) = 0 then .error .centroidAlgorithmFailed
        else
          let y_flux_difference_centroid := np_average_range10 (row_mean pdiff)
          .ok (target_pixel_file.wcs x_flux_difference_centroid y_flux_difference_centroid)

def folded_pdiff (target_pixel_file : TargetPixelFile)
    (fold_epoch fold_period maximum_bin_phase minimum_bin_phase time_bin_size : ℚ) :
    ℕ → ℕ → ℚ :=
  positive_flux_difference target_pixel_file.fluxes
    (bin_indexes (phase_fold target_pixel_file.times fold_epoch fold_period)
      minimum_bin_phase time_bin_size)
    (bin_indexes (phase_fold target_pixel_file.times fold_epoch fold_period)
      maximum_bin_phase time_bin_size)

/-- C5 counterexample: with a target pixel file whose single frame's
phase falls outside the minimum-phase bin window, the function neither
raises `CentroidAlgorithmFailedError` nor returns a centroid: the
`IndexError` from selecting frame `[0]` of the empty bin propagates, so
the claimed "raises `CentroidAlgorithmFailedError` if and only if ...; in
every other case it returns a centroid sky coordinate" is false. -/
theorem centroid_from_folding_parameters_counterexample :
    get_photometric_variability_centroid_from_folding_parameters
        (some (TargetPixelFile.mk [0] [fun _ _ => 1] (fun x y => SkyCoord.mk x y)))
        0 1 5 5 1 =
      .error .indexError ∧
    (Except.error CentroidError.indexError : Except CentroidError SkyCoord) ≠
      .error .centroidAlgorithmFailed ∧
    ∀ sc : SkyCoord,
      (Except.error CentroidError.indexError : Except CentroidError SkyCoord) ≠ .ok sc := by
  have h1 : phase_fold [0] 0 1 = [0] := by norm_num [phase_fold, np_mod]
  have h2 : bin_indexes [0] (5 : ℚ) 1 = [] := by
    norm_num [bin_indexes, List.range_succ, List.filter]
  refine ⟨?_, by simp, fun sc => by simp⟩
  simp only [get_photometric_variability_centroid_from_folding_parameters, h1, h2]
  simp

/-- C5 (amended): `None` from the TESS-cut download raises
`CentroidAlgorithmFailedError`; provided both phase-bin selections are
non-empty, the function raises `CentroidAlgorithmFailedError` exactly
when the column or row means of the non-negative-clamped flux difference
sum to zero, and otherwise returns the world coordinates of the averages
of pixel indexes 0..9 weighted by those column and row means. -/
theorem centroid_from_folding_parameters_spec
    (target_pixel_file : TargetPixelFile)
    (fold_epoch fold_period maximum_bin_phase minimum_bin_phase time_bin_size : ℚ)
    (hmin : bin_indexes (phase_fold target_pixel_file.times fold_epoch fold_period)
      minimum_bin_phase time_bin_size ≠ [])
    (hmax : bin_indexes (phase_fold target_pixel_file.times fold_epoch fold_period)
      maximum_bin_phase time_bin_size ≠ []) :
    get_photometric_variability_centroid_from_folding_parameters none
        fold_epoch fold_period maximum_bin_phase minimum_bin_phase time_bin_size =
      .error .centroidAlgorithmFailed ∧
    (get_photometric_variability_centroid_from_folding_parameters (some target_pixel_file)
        fold_epoch fold_period maximum_bin_phase minimum_bin_phase time_bin_size =
      .error .centroidAlgorithmFailed ↔
      weight_sum (col_mean (folded_pdiff target_pixel_file
        fold_epoch fold_period maximum_bin_phase minimum_bin_phase time_bin_size)) = 0 ∨
      weight_sum (row_mean (folded_pdiff target_pixel_file
        fold_epoch fold_period maximum_bin_phase minimum_bin_phase time_bin_size)) = 0) ∧
    (weight_sum (col_mean (folded_pdiff target_pixel_file
        fold_epoch fold_period maximum_bin_phase minimum_bin_phase time_bin_size)) ≠ 0 →
     weight_sum (row_mean (folded_pdiff target_pixel_file
        fold_epoch fold_period maximum_bin_phase minimum_bin_phase time_bin_size)) ≠ 0 →
      get_photometric_variability_centroid_from_folding_parameters (some target_pixel_file)
          fold_epoch fold_period maximum_bin_phase minimum_bin_phase time_bin_size =
        .ok (target_pixel_file.wcs
          (np_average_range10 (col_mean (folded_pdiff target_pixel_file
            fold_epoch fold_period maximum_bin_phase minimum_bin_phase time_bin_size)))
          (np_average_range10 (row_mean (folded_pdiff target_pixel_file
            fold_epoch fold_period maximum_bin_phase minimum_bin_phase time_bin_size))))) := by
  have hsome : get_photometric_variability_centroid_from_folding_parameters
      (some target_pixel_file)
      fold_epoch fold_period maximum_bin_phase minimum_bin_phase time_bin_size =
      (if weight_sum (col_mean (folded_pdiff target_pixel_file
          fold_epoch fold_period maximum_bin_phase minimum_bin_phase time_bin_size)) = 0 then
        .error .centroidAlgorithmFailed
      else if weight_sum (row_mean (folded_pdiff target_pixel_file
          fold_epoch fold_period maximum_bin_phase minimum_bin_phase time_bin_size)) = 0 then
        .error .centroidAlgorithmFailed
      else
        .ok (target_pixel_file.wcs
          (np_average_range10 (col_mean (folded_pdiff target_pixel_file
            fold_epoch fold_period maximum_bin_phase minimum_bin_phase time_bin_size)))
          (np_average_range10 (row_mean (folded_pdiff target_pixel_file
            fold_epoch fold_period maximum_bin_phase minimum_bin_phase time_bin_size))))) := by
    rw [get_photometric_variability_centroid_from_folding_parameters]
    simp only [if_neg hmin, if_neg hmax, folded_pdiff]
  refine ⟨rfl, ?_, ?_⟩
  · rw [hsome]
    by_cases hx : weight_sum (col_mean (folded_pdiff target_pixel_file
        fold_epoch fold_period maximum_bin_phase minimum_bin_phase time_bin_size)) = 0
    · simp [hx]
    · by_cases hy : weight_sum (row_mean (folded_pdiff target_pixel_file
          fold_epoch fold_period maximum_bin_phase minimum_bin_phase time_bin_size)) = 0
      · simp [hx, hy]
      · simp [hx, hy]
  · intro hx hy
    rw [hsome, if_neg hx, if_neg hy]

theorem centroid_from_folding_parameters_spec_witness :
    (bin_indexes (phase_fold (TargetPixelFile.mk [0] [fun _ _ => 1] (fun x y => SkyCoord.mk x y)).times 0 1) 0 1 ≠ [] ∧
     bin_indexes (phase_fold (TargetPixelFile.mk [0] [fun _ _ => 1] (fun x y => SkyCoord.mk x y)).times 0 1) 0 1 ≠ []) ∧
    (get_photometric_variability_centroid_from_folding_parameters none 0 1 0 0 1 = .error .centroidAlgorithmFailed ∧
     (get_photometric_variability_centroid_from_folding_parameters (some (TargetPixelFile.mk [0] [fun _ _ => 1] (fun x y => SkyCoord.mk x y))) 0 1 0 0 1 = .error .centroidAlgorithmFailed ↔
       weight_sum (col_mean (folded_pdiff (TargetPixelFile.mk [0] [fun _ _ => 1] (fun x y => SkyCoord.mk x y)) 0 1 0 0 1)) = 0 ∨ weight_sum (row_mean (folded_pdiff (TargetPixelFile.mk [0] [fun _ _ => 1] (fun x y => SkyCoord.mk x y)) 0 1 0 0 1)) = 0) ∧
     (weight_sum (col_mean (folded_pdiff (TargetPixelFile.mk [0] [fun _ _ => 1] (fun x y => SkyCoord.mk x y)) 0 1 0 0 1)) ≠ 0 → weight_sum (row_mean (folded_pdiff (TargetPixelFile.mk [0] [fun _ _ => 1] (fun x y => SkyCoord.mk x y)) 0 1 0 0 1)) ≠ 0 →
       get_photometric_variability_centroid_from_folding_parameters (some (TargetPixelFile.mk [0] [fun _ _ => 1] (fun x y => SkyCoord.mk x y))) 0 1 0 0 1 =
         .ok ((TargetPixelFile.mk [0] [fun _ _ => 1] (fun x y => SkyCoord.mk x y)).wcs (np_average_range10 (col_mean (folded_pdiff (TargetPixelFile.mk [0] [fun _ _ => 1] (fun x y => SkyCoord.mk x y)) 0 1 0 0 1)))
           (np_average_range10 (row_mean (folded_pdiff (TargetPixelFile.mk [0] [fun _ _ => 1] (fun x y => SkyCoord.mk x y)) 0 1 0 0 1)))))) :=
  ⟨⟨by norm_num [phase_fold, np_mod, bin_indexes, List.range_succ, List.filter],
    by norm_num [phase_fold, np_mod, bin_indexes, List.range_succ, List.filter]⟩,
   centroid_from_folding_parameters_spec (TargetPixelFile.mk [0] [fun _ _ => 1] (fun x y => SkyCoord.mk x y)) 0 1 0 0 1
     (by norm_num [phase_fold, np_mod, bin_indexes, List.range_succ, List.filter])
     (by norm_num [phase_fold, np_mod, bin_indexes, List.range_succ, List.filter])⟩
